import Mathlib

/-!
Verification of the lighteval benchmark-definition and scoring library.

This file embeds, in Lean 4, the parts of the repository that the checked
claims are about:

* `GenerationParameters` and its dictionary conversions
  (src/lighteval/models/model_input.py);
* the name generation of the multilingual task registry
  (src/lighteval/tasks/multilingual/tasks.py);
* the sample-level metric functions (exact match, probability,
  log-likelihood accuracy).  Their implementation module
  (lighteval/metrics/metrics_sample.py together with
  lighteval/metrics/normalizations.py and lighteval/metrics/metrics.py)
  is not part of the sources available here — only its unit tests are —
  so those functions are modelled from the specification, as documented
  on each definition.

Python floats are modelled as real numbers, Python ints/bools/strings by
their Lean counterparts, and Python dictionaries by association lists.
-/

/-! ## Python-style dynamic values and dictionaries -/

/-- A dynamically typed Python value, as stored in the configuration
dictionaries handled by `GenerationParameters`.  `vNone` is Python `None`;
an absent dictionary key and an explicit `None` value are both read back as
`None` by `dict.get(key, None)`, which is the only read operation the
embedded code performs. -/
inductive PyVal where
  | vNone : PyVal
  | vBool : Bool → PyVal
  | vInt : Int → PyVal
  | vNum : ℚ → PyVal
  | vStrList : List String → PyVal
deriving DecidableEq

/-- A Python dictionary with string keys and dynamic values, as an
association list. -/
abbrev GenDict := List (String × PyVal)

/-- Python `d.get(k, None)` on a string-keyed dictionary. -/
def pyGet (g : GenDict) (k : String) : PyVal :=
  ((g.find? (fun kv => kv.1 == k)).map (fun kv => kv.2)).getD PyVal.vNone

/-- Python `d[k]` / `k in d` lookup on a dictionary whose values are
themselves dictionaries (the shape `from_dict` documents for its input). -/
def lookupDict (d : List (String × GenDict)) (k : String) : Option GenDict :=
  (d.find? (fun kv => kv.1 == k)).map (fun kv => kv.2)

/-! ## GenerationParameters (src/lighteval/models/model_input.py) -/

/-- The `GenerationParameters` dataclass.  Every field defaults to Python
`None`. -/
structure GenerationParameters where
  early_stopping : PyVal := PyVal.vNone
  repetition_penalty : PyVal := PyVal.vNone
  frequency_penalty : PyVal := PyVal.vNone
  length_penalty : PyVal := PyVal.vNone
  presence_penalty : PyVal := PyVal.vNone
  max_new_tokens : PyVal := PyVal.vNone
  min_new_tokens : PyVal := PyVal.vNone
  seed : PyVal := PyVal.vNone
  stop_tokens : PyVal := PyVal.vNone
  temperature : PyVal := PyVal.vNone
  top_k : PyVal := PyVal.vNone
  min_p : PyVal := PyVal.vNone
  top_p : PyVal := PyVal.vNone
  truncate_prompt : PyVal := PyVal.vNone
deriving DecidableEq

/-- `GenerationParameters.from_dict`: if the key "generation" is absent the
default (all-`None`) object is returned; otherwise every field is read from
the inner dictionary with `.get(key, None)`. -/
def GenerationParameters.from_dict (config_dict : List (String × GenDict)) :
    GenerationParameters :=
  match lookupDict config_dict "generation" with
  | none => {}
  | some g =>
    { early_stopping := pyGet g "early_stopping"
      repetition_penalty := pyGet g "repetition_penalty"
      frequency_penalty := pyGet g "frequency_penalty"
      length_penalty := pyGet g "length_penalty"
      presence_penalty := pyGet g "presence_penalty"
      max_new_tokens := pyGet g "max_new_tokens"
      min_new_tokens := pyGet g "min_new_tokens"
      seed := pyGet g "seed"
      stop_tokens := pyGet g "stop_tokens"
      temperature := pyGet g "temperature"
      top_k := pyGet g "top_k"
      min_p := pyGet g "min_p"
      top_p := pyGet g "top_p"
      truncate_prompt := pyGet g "truncate_prompt" }

/-- The dict comprehension `{k: v for k, v in args.items() if v is not None}`
shared by the three serialization methods. -/
def dropNones (args : List (String × PyVal)) : List (String × PyVal) :=
  args.filter (fun kv => decide (kv.2 ≠ PyVal.vNone))

/-- `GenerationParameters.to_vllm_openai_dict`. -/
def GenerationParameters.to_vllm_openai_dict (p : GenerationParameters) :
    List (String × PyVal) :=
  dropNones
    [("presence_penalty", p.presence_penalty),
     ("frequency_penalty", p.frequency_penalty),
     ("repetition_penalty", p.repetition_penalty),
     ("temperature", p.temperature),
     ("top_p", p.top_p),
     ("top_k", p.top_k),
     ("min_p", p.min_p),
     ("seed", p.seed),
     ("length_penalty", p.length_penalty),
     ("early_stopping", p.early_stopping),
     ("stop", p.stop_tokens),
     ("max_tokens", p.max_new_tokens),
     ("min_tokens", p.min_new_tokens),
     ("truncate_prompt_tokens", p.truncate_prompt)]

/-- `GenerationParameters.to_transformers_dict`. -/
def GenerationParameters.to_transformers_dict (p : GenerationParameters) :
    List (String × PyVal) :=
  dropNones
    [("max_new_tokens", p.max_new_tokens),
     ("min_new_tokens", p.min_new_tokens),
     ("early_stopping", p.early_stopping),
     ("stop_strings", p.stop_tokens),
     ("temperature", p.temperature),
     ("top_k", p.top_k),
     ("top_p", p.top_p),
     ("min_p", p.min_p),
     ("repetition_penalty", p.repetition_penalty),
     ("length_penalty", p.length_penalty),
     ("output_scores", PyVal.vBool true),
     ("return_dict_in_generate", PyVal.vBool true)]

/-- `GenerationParameters.to_tgi_inferenceendpoint_dict`. -/
def GenerationParameters.to_tgi_inferenceendpoint_dict (p : GenerationParameters) :
    List (String × PyVal) :=
  dropNones
    [("decoder_input_details", PyVal.vBool true),
     ("details", PyVal.vBool true),
     ("frequency_penalty", p.frequency_penalty),
     ("max_new_tokens", p.max_new_tokens),
     ("repetition_penalty", p.repetition_penalty),
     ("seed", p.seed),
     ("stop", p.stop_tokens),
     ("temperature", p.temperature),
     ("top_k", p.top_k),
     ("top_p", p.top_p),
     ("truncate", p.truncate_prompt)]

/-! ## Multilingual task registry names
(src/lighteval/tasks/multilingual/tasks.py) -/

/-- The languages appearing in the `xnli_tasks` table.  Modelled from the
spec: the `Language` enum of `lighteval.utils.language` is not among the
available sources; its members carry ISO 639-3 codes as `value`. -/
inductive TaskLanguage where
  | arabic | english | french | spanish | bulgarian | german | greek
  | hindi | russian | swahili | thai | turkish | urdu | vietnamese | chinese
deriving DecidableEq

/-- Modelled from the spec: the `value` (ISO 639-3 code) of each `Language`
enum member used by the xnli table; the enum definition itself is not among
the available sources. -/
def TaskLanguage.value : TaskLanguage → String
  | .arabic => "ara"
  | .english => "eng"
  | .french => "fra"
  | .spanish => "spa"
  | .bulgarian => "bul"
  | .german => "deu"
  | .greek => "ell"
  | .hindi => "hin"
  | .russian => "rus"
  | .swahili => "swa"
  | .thai => "tha"
  | .turkish => "tur"
  | .urdu => "urd"
  | .vietnamese => "vie"
  | .chinese => "zho"

/-- `formulation.name.lower()` for the three formulations
`[MCFFormulation(), CFFormulation(), HybridFormulation()]` iterated by every
task comprehension. -/
def formulationNames : List String := ["mcf", "cf", "hybrid"]

/-- The language list of the `xnli_tasks` comprehension, exactly as written
in the source (tasks.py lines 81-99): `ENGLISH` and `FRENCH` both occur
twice. -/
def xnliLanguages : List TaskLanguage :=
  [.arabic, .english, .french, .spanish, .bulgarian, .german, .greek,
   .english, .french, .hindi, .russian, .swahili, .thai, .turkish, .urdu,
   .vietnamese, .chinese]

/-- The `name` fields of the `xnli_tasks` entries, in comprehension order
(outer loop over languages, inner loop over formulations):
`f"xnli_{language.value}_{formulation.name.lower()}"`.  These are the first
entries extended into `TASKS_TABLE` (tasks.py line 316). -/
def xnliTaskNames : List String :=
  xnliLanguages.flatMap
    (fun l => formulationNames.map (fun f => "xnli_" ++ l.value ++ "_" ++ f))

/-! ## Sample-level metrics

The implementation module `lighteval.metrics.metrics_sample` (with
`lighteval.metrics.normalizations`) is not among the available sources, only
its unit tests are, so the metric functions below are modelled from the
specification (sections 4.1-4.3, 6 and 8 of the spec). -/

/-- The comparison mode of the exact-match family: full equality or prefix
match. -/
inductive EMType where
  | full
  | pref
deriving DecidableEq

/-- Modelled from the spec: the configuration of
`lighteval.metrics.metrics_sample.ExactMatches` (missing from the available
sources), as exercised by the unit tests — pluggable normalizers for gold
and prediction, optional whitespace stripping, and a comparison mode. -/
structure ExactMatches where
  normalize_gold : Option (String → String) := none
  normalize_pred : Option (String → String) := none
  strip_strings : Bool := false
  type_exact_match : EMType := EMType.full

/-- Modelled from the spec (section 4.1):
`ExactMatches.compute_one_item(gold, pred)` — the implementation is missing
from the available sources.  An empty predicted or empty gold string always
scores 0; otherwise both strings are optionally stripped of surrounding
whitespace and passed through the configured normalizers, then compared
either for full equality or for the gold being a prefix of the
prediction. -/
def ExactMatches.compute_one_item (em : ExactMatches) (gold pred : String) : ℕ :=
  if gold = "" ∨ pred = "" then 0
  else
    let gold1 := if em.strip_strings then gold.trim else gold
    let pred1 := if em.strip_strings then pred.trim else pred
    let gold2 := match em.normalize_gold with
      | some f => f gold1
      | none => gold1
    let pred2 := match em.normalize_pred with
      | some f => f pred1
      | none => pred1
    match em.type_exact_match with
    | EMType.full => if gold2 = pred2 then 1 else 0
    | EMType.pref => if gold2.isPrefixOf pred2 then 1 else 0

/-- The exact-match configuration `ExactMatches(strip_strings=True)` used by
the spec's testable property on whitespace-stripped self-comparison. -/
def emStrip : ExactMatches := { strip_strings := true }

/-- The maximum value of a list of reals (0 for the empty list, which the
metrics never query). -/
noncomputable def maxVal : List ℝ → ℝ
  | [] => 0
  | [x] => x
  | x :: y :: xs => max x (maxVal (y :: xs))

/-- The minimum value of a list of reals (0 for the empty list); `np.min`,
the aggregation function exercised by the unit tests. -/
noncomputable def listMin : List ℝ → ℝ
  | [] => 0
  | [x] => x
  | x :: y :: xs => min x (listMin (y :: xs))

/-- The maximum value of a list of reals as an aggregation function;
`np.max`, the default aggregation of the probability metric. -/
noncomputable def listMax : List ℝ → ℝ
  | [] => 0
  | [x] => x
  | x :: y :: xs => max x (listMax (y :: xs))

/-- `np.argmax`: the index of the first occurrence of the maximum of a list
(0 for the empty list, which the metrics never query). -/
noncomputable def argmaxIdx : List ℝ → ℕ
  | [] => 0
  | [_] => 0
  | x :: y :: xs => if maxVal (y :: xs) ≤ x then 0 else argmaxIdx (y :: xs) + 1

/-- Modelled from the spec (section 4.2, "Normalization"): the character
length normalization `CharNorm` of `lighteval.metrics.normalizations`
(missing from the available sources) divides each choice's log-probability
by the character count of that choice's text. -/
noncomputable def charNormScores (choices_texts : List String)
    (choices_logprob : List ℝ) : List ℝ :=
  List.zipWith (fun lp t => lp / (t.length : ℝ)) choices_logprob choices_texts

/-- The per-choice scores after the optional length normalization. -/
noncomputable def metricScores (charNorm : Bool) (choices_texts : List String)
    (choices_logprob : List ℝ) : List ℝ :=
  if charNorm then charNormScores choices_texts choices_logprob
  else choices_logprob

/-- Modelled from the spec (section 4.2): the probability metric of
`lighteval.metrics.metrics_sample` (missing from the available sources).
Scores are optionally length-normalized, converted to linear probabilities
by exponentiation, and the per-gold-index probabilities are either summed
(mass mode) or reduced by the configured aggregation function — with no
renormalization across non-gold choices. -/
noncomputable def probabilityMetric (return_mass : Bool) (charNorm : Bool)
    (aggregation : List ℝ → ℝ) (gold_ixs : List ℕ)
    (choices_texts : List String) (choices_logprob : List ℝ) : ℝ :=
  let probs := (metricScores charNorm choices_texts choices_logprob).map Real.exp
  let goldProbs := gold_ixs.map (fun i => probs.getD i 0)
  if return_mass then goldProbs.sum else aggregation goldProbs

/-- Modelled from the spec (section 4.3): the log-likelihood accuracy metric
of `lighteval.metrics.metrics_sample` (missing from the available sources).
Returns 1 when the arg-maximum of the optionally length-normalized scores is
among the gold indices, else 0. -/
noncomputable def loglikelihoodAcc (charNorm : Bool) (gold_ixs : List ℕ)
    (choices_texts : List String) (choices_logprob : List ℝ) : ℕ :=
  if argmaxIdx (metricScores charNorm choices_texts choices_logprob) ∈ gold_ixs
  then 1 else 0

/-! ## Helper lemmas -/

theorem mem_dropNones {kv : String × PyVal} {args : List (String × PyVal)}
    (h : kv ∈ dropNones args) : kv.2 ≠ PyVal.vNone := by
  simp only [dropNones, List.mem_filter] at h
  exact of_decide_eq_true h.2

/-! ## Claim theorems -/

/-- Claim C9: `GenerationParameters.from_dict` is total; when the key
"generation" is absent it returns the object with every field `None`, and
when the key is present every field is read from the inner dictionary by its
own key, defaulting to `None` for a missing key. -/
theorem from_dict_spec (config_dict : List (String × GenDict)) :
    (lookupDict config_dict "generation" = none →
      GenerationParameters.from_dict config_dict =
        ⟨PyVal.vNone, PyVal.vNone, PyVal.vNone, PyVal.vNone, PyVal.vNone,
         PyVal.vNone, PyVal.vNone, PyVal.vNone, PyVal.vNone, PyVal.vNone,
         PyVal.vNone, PyVal.vNone, PyVal.vNone, PyVal.vNone⟩) ∧
    (∀ g, lookupDict config_dict "generation" = some g →
      GenerationParameters.from_dict config_dict =
        ⟨pyGet g "early_stopping", pyGet g "repetition_penalty",
         pyGet g "frequency_penalty", pyGet g "length_penalty",
         pyGet g "presence_penalty", pyGet g "max_new_tokens",
         pyGet g "min_new_tokens", pyGet g "seed", pyGet g "stop_tokens",
         pyGet g "temperature", pyGet g "top_k", pyGet g "min_p",
         pyGet g "top_p", pyGet g "truncate_prompt"⟩) := by
  constructor
  · intro h
    simp [GenerationParameters.from_dict, h]
  · intro g h
    simp [GenerationParameters.from_dict, h]

/-- Witness for C9 at two concrete dictionaries. -/
theorem from_dict_spec_witness :
    GenerationParameters.from_dict [] =
      ⟨PyVal.vNone, PyVal.vNone, PyVal.vNone, PyVal.vNone, PyVal.vNone,
       PyVal.vNone, PyVal.vNone, PyVal.vNone, PyVal.vNone, PyVal.vNone,
       PyVal.vNone, PyVal.vNone, PyVal.vNone, PyVal.vNone⟩ ∧
    GenerationParameters.from_dict [("generation", [("seed", PyVal.vInt 42)])] =
      ⟨pyGet [("seed", PyVal.vInt 42)] "early_stopping",
       pyGet [("seed", PyVal.vInt 42)] "repetition_penalty",
       pyGet [("seed", PyVal.vInt 42)] "frequency_penalty",
       pyGet [("seed", PyVal.vInt 42)] "length_penalty",
       pyGet [("seed", PyVal.vInt 42)] "presence_penalty",
       pyGet [("seed", PyVal.vInt 42)] "max_new_tokens",
       pyGet [("seed", PyVal.vInt 42)] "min_new_tokens",
       pyGet [("seed", PyVal.vInt 42)] "seed",
       pyGet [("seed", PyVal.vInt 42)] "stop_tokens",
       pyGet [("seed", PyVal.vInt 42)] "temperature",
       pyGet [("seed", PyVal.vInt 42)] "top_k",
       pyGet [("seed", PyVal.vInt 42)] "min_p",
       pyGet [("seed", PyVal.vInt 42)] "top_p",
       pyGet [("seed", PyVal.vInt 42)] "truncate_prompt"⟩ :=
  ⟨(from_dict_spec []).1 rfl,
   (from_dict_spec [("generation", [("seed", PyVal.vInt 42)])]).2
     [("seed", PyVal.vInt 42)] (by decide)⟩

/-- Claim C10: none of the three serialization dictionaries maps a key to
`None` (unset fields are omitted), and `to_transformers_dict` always
contains `output_scores: True` and `return_dict_in_generate: True`. -/
theorem serialization_omits_none (p : GenerationParameters) :
    (∀ kv ∈ p.to_vllm_openai_dict, kv.2 ≠ PyVal.vNone) ∧
    (∀ kv ∈ p.to_transformers_dict, kv.2 ≠ PyVal.vNone) ∧
    (∀ kv ∈ p.to_tgi_inferenceendpoint_dict, kv.2 ≠ PyVal.vNone) ∧
    ("output_scores", PyVal.vBool true) ∈ p.to_transformers_dict ∧
    ("return_dict_in_generate", PyVal.vBool true) ∈ p.to_transformers_dict := by
  refine ⟨fun kv h => mem_dropNones h, fun kv h => mem_dropNones h,
    fun kv h => mem_dropNones h, ?_, ?_⟩
  · exact List.mem_filter.mpr ⟨by simp, by decide⟩
  · exact List.mem_filter.mpr ⟨by simp, by decide⟩

/-- Witness for C10 at the default (all-`None`) parameters. -/
theorem serialization_omits_none_witness :
    ("output_scores", PyVal.vBool true) ∈
      GenerationParameters.to_transformers_dict {} ∧
    ("return_dict_in_generate", PyVal.vBool true) ∈
      GenerationParameters.to_transformers_dict {} :=
  ⟨(serialization_omits_none {}).2.2.2.1, (serialization_omits_none {}).2.2.2.2⟩

/-- Claim C2 is violated by the code: `Language.ENGLISH` occurs twice in the
language list of the `xnli_tasks` comprehension, so `TASKS_TABLE` (whose
first entries are `xnli_tasks`) holds two distinct entries — positions 3 and
21 — with the identical name `xnli_eng_mcf`, and the generated name list is
not duplicate-free. -/
theorem xnli_duplicate_names :
    xnliTaskNames[3]? = some "xnli_eng_mcf" ∧
    xnliTaskNames[21]? = some "xnli_eng_mcf" ∧
    (3 : ℕ) ≠ 21 ∧ ¬ xnliTaskNames.Nodup := by decide

/-- Claim C3, counterexample: with whitespace stripping, the exact-match
metric applied to the pair of two empty strings returns 0, so the claim's
universally quantified part fails at s = "". -/
theorem exact_match_empty_pair_ne_one :
    emStrip.compute_one_item "" "" = 0 ∧ (0 : ℕ) ≠ 1 :=
  ⟨rfl, by decide⟩

/-- Claim C3 as amended: for every nonempty string s, the exact-match metric
with whitespace stripping applied to (s, s) returns 1, and applied to the
pair of two empty strings it returns 0. -/
theorem exact_match_self_nonempty :
    (∀ s : String, s ≠ "" → emStrip.compute_one_item s s = 1) ∧
    emStrip.compute_one_item "" "" = 0 := by
  constructor
  · intro s hs
    simp [ExactMatches.compute_one_item, emStrip, hs]
  · rfl

/-- Witness for the amended C3 at a concrete nonempty string. -/
theorem exact_match_self_nonempty_witness :
    emStrip.compute_one_item " fox " " fox " = 1 :=
  exact_match_self_nonempty.1 " fox " (by decide)

/-- Claim C4: for every configuration of the exact-match family, an empty
predicted or empty gold string scores 0 (and the computation is total, so no
error is raised). -/
theorem exact_match_empty_zero (em : ExactMatches) (gold pred : String)
    (h : gold = "" ∨ pred = "") : em.compute_one_item gold pred = 0 := by
  simp only [ExactMatches.compute_one_item]
  rw [if_pos h]

/-- Witness for C4: both orders of emptiness, full and prefix mode, with and
without a normalizer. -/
theorem exact_match_empty_zero_witness :
    ExactMatches.compute_one_item {} "" "" = 0 ∧
    ExactMatches.compute_one_item { type_exact_match := EMType.pref } "abc" "" = 0 ∧
    ExactMatches.compute_one_item { normalize_gold := some (fun _ => "x") } "" "abc" = 0 :=
  ⟨exact_match_empty_zero {} "" "" (Or.inl rfl),
   exact_match_empty_zero { type_exact_match := EMType.pref } "abc" "" (Or.inr rfl),
   exact_match_empty_zero { normalize_gold := some (fun _ => "x") } "" "abc" (Or.inl rfl)⟩

theorem maxVal_is_ub : ∀ (l : List ℝ) (j : ℕ), j < l.length → l.getD j 0 ≤ maxVal l := by
  intro l
  induction l with
  | nil => intro j hj; simp at hj
  | cons x xs ih =>
    intro j hj
    cases xs with
    | nil =>
      cases j with
      | zero => simp [maxVal]
      | succ j => simp at hj
    | cons y ys =>
      cases j with
      | zero => simp [maxVal]
      | succ j =>
        simp only [List.getD_cons_succ, maxVal]
        exact le_trans (ih j (by simpa using hj)) (le_max_right _ _)

theorem argmaxIdx_lt_length : ∀ (l : List ℝ), l ≠ [] → argmaxIdx l < l.length := by
  intro l
  induction l with
  | nil => intro h; exact absurd rfl h
  | cons x xs ih =>
    intro _
    cases xs with
    | nil => simp [argmaxIdx]
    | cons y ys =>
      by_cases hc : maxVal (y :: ys) ≤ x
      · simp [argmaxIdx, hc]
      · simp only [argmaxIdx, if_neg hc, List.length_cons]
        exact Nat.succ_lt_succ (ih (by simp))

theorem argmaxIdx_attains : ∀ (l : List ℝ), l ≠ [] → maxVal l ≤ l.getD (argmaxIdx l) 0 := by
  intro l
  induction l with
  | nil => intro h; exact absurd rfl h
  | cons x xs ih =>
    intro _
    cases xs with
    | nil => simp [maxVal, argmaxIdx]
    | cons y ys =>
      by_cases hc : maxVal (y :: ys) ≤ x
      · simp only [maxVal, argmaxIdx, if_pos hc, List.getD_cons_zero]
        exact max_le le_rfl hc
      · simp only [maxVal, argmaxIdx, if_neg hc, List.getD_cons_succ]
        exact le_trans (max_le (le_of_not_le hc) le_rfl) (ih (by simp))

theorem argmaxIdx_first : ∀ (l : List ℝ) (j : ℕ), j < argmaxIdx l →
    l.getD j 0 < maxVal l := by
  intro l
  induction l with
  | nil => intro j hj; simp [argmaxIdx] at hj
  | cons x xs ih =>
    intro j hj
    cases xs with
    | nil => simp [argmaxIdx] at hj
    | cons y ys =>
      by_cases hc : maxVal (y :: ys) ≤ x
      · simp [argmaxIdx, hc] at hj
      · simp only [argmaxIdx, if_neg hc] at hj
        cases j with
        | zero =>
          simp only [List.getD_cons_zero, maxVal]
          exact lt_of_lt_of_le (lt_of_not_le hc) (le_max_right _ _)
        | succ j =>
          simp only [List.getD_cons_succ, maxVal]
          exact lt_of_lt_of_le (ih j (Nat.lt_of_succ_lt_succ hj)) (le_max_right _ _)

theorem listMin_mem : ∀ (l : List ℝ), l ≠ [] → listMin l ∈ l := by
  intro l
  induction l with
  | nil => intro h; exact absurd rfl h
  | cons x xs ih =>
    intro _
    cases xs with
    | nil => simp [listMin]
    | cons y ys =>
      rcases min_cases x (listMin (y :: ys)) with ⟨h, _⟩ | ⟨h, _⟩
      · have : listMin (x :: y :: ys) = x := h
        rw [this]; exact List.mem_cons_self _ _
      · have : listMin (x :: y :: ys) = listMin (y :: ys) := h
        rw [this]; exact List.mem_cons_of_mem _ (ih (by simp))

theorem listMax_mem : ∀ (l : List ℝ), l ≠ [] → listMax l ∈ l := by
  intro l
  induction l with
  | nil => intro h; exact absurd rfl h
  | cons x xs ih =>
    intro _
    cases xs with
    | nil => simp [listMax]
    | cons y ys =>
      rcases max_cases x (listMax (y :: ys)) with ⟨h, _⟩ | ⟨h, _⟩
      · have : listMax (x :: y :: ys) = x := h
        rw [this]; exact List.mem_cons_self _ _
      · have : listMax (x :: y :: ys) = listMax (y :: ys) := h
        rw [this]; exact List.mem_cons_of_mem _ (ih (by simp))

theorem getD_mem_or_default (l : List ℝ) (i : ℕ) :
    l.getD i 0 ∈ l ∨ l.getD i 0 = 0 := by
  by_cases h : i < l.length
  · left
    rw [List.getD_eq_getElem l 0 h]
    exact List.getElem_mem h
  · right
    exact List.getD_eq_default l 0 (le_of_not_lt h)

theorem getD_nonneg {l : List ℝ} (hl : ∀ x ∈ l, 0 ≤ x) (i : ℕ) :
    0 ≤ l.getD i 0 := by
  rcases getD_mem_or_default l i with h | h
  · exact hl _ h
  · rw [h]

theorem sum_range_getD (l : List ℝ) :
    (Finset.range l.length).sum (fun i => l.getD i 0) = l.sum := by
  induction l with
  | nil => simp
  | cons x xs ih =>
    rw [List.length_cons, Finset.sum_range_succ']
    simp only [List.getD_cons_succ, List.getD_cons_zero]
    rw [ih, List.sum_cons, add_comm]

theorem sum_map_getD_le (l : List ℝ) (hl : ∀ x ∈ l, 0 ≤ x) (g : List ℕ)
    (hn : g.Nodup) (hr : ∀ i ∈ g, i < l.length) :
    (g.map (fun i => l.getD i 0)).sum ≤ l.sum := by
  have h1 : (g.map (fun i => l.getD i 0)).sum =
      g.toFinset.sum (fun i => l.getD i 0) :=
    (List.sum_toFinset _ hn).symm
  have h2 : g.toFinset ⊆ Finset.range l.length := by
    intro i hi
    rw [Finset.mem_range]
    exact hr i (List.mem_toFinset.mp hi)
  rw [h1]
  calc g.toFinset.sum (fun i => l.getD i 0)
      ≤ (Finset.range l.length).sum (fun i => l.getD i 0) :=
        Finset.sum_le_sum_of_subset_of_nonneg h2 (fun i _ _ => getD_nonneg hl i)
    _ = l.sum := sum_range_getD l

theorem exp_list_bounds {lps : List ℝ} (hsum : (lps.map Real.exp).sum = 1) :
    ∀ x ∈ lps.map Real.exp, 0 ≤ x ∧ x ≤ 1 := by
  have hnn : ∀ x ∈ lps.map Real.exp, 0 ≤ x := by
    intro x hx
    rcases List.mem_map.mp hx with ⟨y, _, rfl⟩
    exact (Real.exp_pos y).le
  intro x hx
  refine ⟨hnn x hx, ?_⟩
  calc x ≤ (lps.map Real.exp).sum := List.single_le_sum hnn x hx
    _ = 1 := hsum

theorem charNormScores_nonpos {lps : List ℝ} (h : ∀ y ∈ lps, y ≤ 0) :
    ∀ (texts : List String), ∀ x ∈ charNormScores texts lps, x ≤ 0 := by
  induction lps with
  | nil => intro texts x hx; simp [charNormScores] at hx
  | cons y ys ih =>
    intro texts x hx
    cases texts with
    | nil => simp [charNormScores] at hx
    | cons t ts =>
      simp only [charNormScores, List.zipWith_cons_cons] at hx
      rcases List.mem_cons.mp hx with rfl | hx2
      · exact div_nonpos_of_nonpos_of_nonneg (h y (List.mem_cons_self _ _)) (by positivity)
      · exact ih (fun z hz => h z (List.mem_cons_of_mem _ hz)) ts x hx2

theorem charNorm_exp_bounds {texts : List String} {lps : List ℝ}
    (hsum : (lps.map Real.exp).sum = 1) :
    ∀ x ∈ (charNormScores texts lps).map Real.exp, 0 ≤ x ∧ x ≤ 1 := by
  have hb := exp_list_bounds hsum
  have hml : ∀ y ∈ lps, y ≤ 0 := by
    intro y hy
    exact Real.exp_le_one_iff.mp (hb _ (List.mem_map_of_mem Real.exp hy)).2
  intro x hx
  rcases List.mem_map.mp hx with ⟨s, hs, rfl⟩
  exact ⟨(Real.exp_pos s).le,
    Real.exp_le_one_iff.mpr (charNormScores_nonpos hml texts s hs)⟩

theorem goldProbs_bounds {probs : List ℝ} (h : ∀ x ∈ probs, 0 ≤ x ∧ x ≤ 1)
    (golds : List ℕ) :
    ∀ x ∈ golds.map (fun i => probs.getD i 0), 0 ≤ x ∧ x ≤ 1 := by
  intro x hx
  rcases List.mem_map.mp hx with ⟨i, _, rfl⟩
  rcases getD_mem_or_default probs i with hm | hd
  · exact h _ hm
  · rw [hd]; exact ⟨le_refl 0, zero_le_one⟩

theorem agg_bounds {gp : List ℝ} (h : ∀ x ∈ gp, 0 ≤ x ∧ x ≤ 1) :
    (0 ≤ listMin gp ∧ listMin gp ≤ 1) ∧ (0 ≤ listMax gp ∧ listMax gp ≤ 1) := by
  cases gp with
  | nil => simp [listMin, listMax]
  | cons x xs =>
    have h1 := listMin_mem (x :: xs) (by simp)
    have h2 := listMax_mem (x :: xs) (by simp)
    exact ⟨h _ h1, h _ h2⟩

theorem metricScores_false (texts : List String) (lps : List ℝ) :
    metricScores false texts lps = lps := rfl

theorem metricScores_true (texts : List String) (lps : List ℝ) :
    metricScores true texts lps = charNormScores texts lps := rfl

theorem probabilityMetric_agg (cn : Bool) (agg : List ℝ → ℝ) (golds : List ℕ)
    (texts : List String) (lps : List ℝ) :
    probabilityMetric false cn agg golds texts lps =
      agg (golds.map (fun i =>
        ((metricScores cn texts lps).map Real.exp).getD i 0)) := rfl

theorem probabilityMetric_mass (cn : Bool) (agg : List ℝ → ℝ) (golds : List ℕ)
    (texts : List String) (lps : List ℝ) :
    probabilityMetric true cn agg golds texts lps =
      (golds.map (fun i =>
        ((metricScores cn texts lps).map Real.exp).getD i 0)).sum := rfl

theorem compute_one_item_cases (em : ExactMatches) (gold pred : String) :
    em.compute_one_item gold pred = 0 ∨ em.compute_one_item gold pred = 1 := by
  obtain ⟨ng, np, ss, ty⟩ := em
  unfold ExactMatches.compute_one_item
  cases ty <;> dsimp only <;> split_ifs <;> simp

/-- Claim C5: the log-likelihood accuracy metric returns 1 exactly when the
first index attaining the maximum (optionally length-normalized) score is an
element of the gold-index list (membership of any one gold index suffices),
and 0 otherwise; the arg-maximum index is in range, attains the maximum of
the scores, and is its first occurrence. -/
theorem loglikelihood_acc_argmax (golds : List ℕ) (texts : List String)
    (lps : List ℝ) (h : lps ≠ []) :
    (loglikelihoodAcc false golds texts lps = 1 ↔ argmaxIdx lps ∈ golds) ∧
    (loglikelihoodAcc false golds texts lps = 0 ↔ argmaxIdx lps ∉ golds) ∧
    argmaxIdx lps < lps.length ∧
    (∀ j, j < lps.length → lps.getD j 0 ≤ lps.getD (argmaxIdx lps) 0) ∧
    (∀ j, j < argmaxIdx lps → lps.getD j 0 < lps.getD (argmaxIdx lps) 0) ∧
    (loglikelihoodAcc true golds texts lps = 1 ↔
      argmaxIdx (charNormScores texts lps) ∈ golds) := by
  refine ⟨?_, ?_, argmaxIdx_lt_length lps h, ?_, ?_, ?_⟩
  · unfold loglikelihoodAcc
    rw [metricScores_false]
    split_ifs with hm <;> simp [hm]
  · unfold loglikelihoodAcc
    rw [metricScores_false]
    split_ifs with hm <;> simp [hm]
  · intro j hj
    exact le_trans (maxVal_is_ub lps j hj) (argmaxIdx_attains lps h)
  · intro j hj
    exact lt_of_lt_of_le (argmaxIdx_first lps j hj) (argmaxIdx_attains lps h)
  · unfold loglikelihoodAcc
    rw [metricScores_true]
    split_ifs with hm <;> simp [hm]

/-- Witness for C5 at the concrete input of the unit test (four choices,
gold indices 1 and 3). -/
theorem loglikelihood_acc_argmax_witness :
    argmaxIdx [(1 : ℝ), 2, 3, 4] < [(1 : ℝ), 2, 3, 4].length :=
  (loglikelihood_acc_argmax [1, 3] ["A", "B", "C", "D"] [(1 : ℝ), 2, 3, 4]
    (by simp)).2.2.1

/-- Claim C7: in non-mass mode the probability metric applies the configured
reduction function to the list of per-gold-index linear probabilities rather
than summing them; with aggregation minimum, gold indices [0, 2] and
log-probabilities log([0.7, 0.2, 0.1]) the result is 0.1 (and not the 0.8
a sum would give). -/
theorem probability_aggregation_reduction :
    (∀ (agg : List ℝ → ℝ) (golds : List ℕ) (texts : List String)
      (lps : List ℝ),
      probabilityMetric false false agg golds texts lps =
        agg (golds.map (fun i => (lps.map Real.exp).getD i 0))) ∧
    probabilityMetric false false listMin [0, 2] ["A", "B", "C"]
      [Real.log (7/10), Real.log (1/5), Real.log (1/10)] = 1/10 ∧
    (1/10 : ℝ) ≠ 8/10 := by
  refine ⟨fun agg golds texts lps => rfl, ?_, by norm_num⟩
  have e1 : Real.exp (Real.log (7/10)) = 7/10 := Real.exp_log (by norm_num)
  have e3 : Real.exp (Real.log (1/10)) = 1/10 := Real.exp_log (by norm_num)
  rw [probabilityMetric_agg, metricScores_false]
  simp only [List.map_cons, List.map_nil, List.getD_cons_zero,
    List.getD_cons_succ, e1, e3, listMin]
  rw [min_eq_right (by norm_num)]

/-- Claim C1 fails against the repository's own test: in mass mode with
gold_ixs = [0] and choices_logprob = log([0.35, 0.1, 0.05]), the modelled
metric (sum of the gold linear probabilities, no renormalization — exactly
what the claim and the spec state) returns 0.35, while the unit test in
tests/test_unit_base_metrics.py asserts the implementation returns ≈ 0.7 at
this very input. -/
theorem probability_mass_test_input :
    probabilityMetric true false listMax [0] ["A", "B", "C"]
      [Real.log (7/20), Real.log (1/10), Real.log (1/20)] = 7/20 ∧
    (7/20 : ℝ) ≠ 7/10 := by
  refine ⟨?_, by norm_num⟩
  have e1 : Real.exp (Real.log (7/20)) = 7/20 := Real.exp_log (by norm_num)
  rw [probabilityMetric_mass, metricScores_false]
  simp only [List.map_cons, List.map_nil, List.getD_cons_zero, e1,
    List.sum_cons, List.sum_nil, add_zero]

/-- Claim C6: with character-length normalization, each choice's
log-probability is divided by the character count of that choice's text
before exponentiation and before the argmax: the length-normalized
probability metric at the documented input l([0.7, 0.2, 0.1]) with gold [1]
returns 0.2^(1/2), and on the test input the normalized accuracy metric
selects choice 0 (which the unnormalized metric does not select),
showing that normalization is applied before, not after, selection. -/
theorem char_norm_before_selection :
    probabilityMetric false true listMax [1] ["A", "BB", "CCC"]
      [Real.log (7/10), Real.log (1/5), Real.log (1/10)] =
      (1/5 : ℝ) ^ ((1 : ℝ)/2) ∧
    loglikelihoodAcc true [0] ["ABCDE", "AB"]
      [Real.log (1/2), Real.log (3/5)] = 1 ∧
    loglikelihoodAcc false [0] ["ABCDE", "AB"]
      [Real.log (1/2), Real.log (3/5)] = 0 := by
  refine ⟨?_, ?_, ?_⟩
  · rw [probabilityMetric_agg, metricScores_true]
    simp only [charNormScores, List.zipWith_cons_cons, List.zipWith_nil_left,
      List.map_cons, List.map_nil, List.getD_cons_succ, List.getD_cons_zero,
      listMax]
    have h2 : ("BB" : String).length = 2 := rfl
    rw [h2, Real.rpow_def_of_pos (by norm_num : (0:ℝ) < 1/5)]
    congr 1
    push_cast
    ring
  · have h5 : ("ABCDE" : String).length = 5 := rfl
    have h2 : ("AB" : String).length = 2 := rfl
    have hle : Real.log (3/5) / (("AB" : String).length : ℝ) ≤
        Real.log (1/2) / (("ABCDE" : String).length : ℝ) := by
      rw [h5, h2]
      push_cast
      rw [div_le_div_iff₀ (by norm_num) (by norm_num)]
      have hmono := (Real.log_le_log_iff
        (by norm_num : (0:ℝ) < (3/5)^5) (by norm_num : (0:ℝ) < (1/2)^2)).mpr
        (by norm_num)
      rw [Real.log_pow, Real.log_pow] at hmono
      push_cast at hmono
      linarith
    unfold loglikelihoodAcc
    rw [metricScores_true]
    simp only [charNormScores, List.zipWith_cons_cons, List.zipWith_nil_left]
    have hidx : argmaxIdx
        [Real.log (1/2) / (("ABCDE" : String).length : ℝ),
         Real.log (3/5) / (("AB" : String).length : ℝ)] = 0 := by
      simp only [argmaxIdx, maxVal]
      rw [if_pos hle]
    simp only [hidx]
    simp
  · have hlt : Real.log (1/2) < Real.log (3/5) :=
      Real.log_lt_log (by norm_num) (by norm_num)
    unfold loglikelihoodAcc
    rw [metricScores_false]
    have hidx : argmaxIdx [Real.log (1/2), Real.log (3/5)] = 1 := by
      simp only [argmaxIdx, maxVal]
      rw [if_neg (not_le.mpr hlt)]
    simp only [hidx]
    simp

/-- Claim C8 as amended: on well-formed input — pairwise-distinct gold
indices in range of the choices, log-probabilities parallel to the choices
and forming a valid probability assignment — the exact-match family and the
accuracy metric return 0 or 1, and the probability metric returns a real
value in the closed interval [0, 1] in mass mode without normalization and
in min/max-aggregation mode with or without character normalization; in
mass mode combined with character normalization only nonnegativity holds
(the value can exceed 1, see the counterexample).  Every metric is a total
function, so no error is raised. -/
theorem metrics_output_bounded (golds : List ℕ) (texts : List String)
    (lps : List ℝ) (hn : golds.Nodup) (hr : ∀ i ∈ golds, i < lps.length)
    (hsum : (lps.map Real.exp).sum = 1) :
    (∀ (em : ExactMatches) (g p : String),
      em.compute_one_item g p = 0 ∨ em.compute_one_item g p = 1) ∧
    (∀ cn : Bool, loglikelihoodAcc cn golds texts lps = 0 ∨
      loglikelihoodAcc cn golds texts lps = 1) ∧
    (0 ≤ probabilityMetric true false listMax golds texts lps ∧
      probabilityMetric true false listMax golds texts lps ≤ 1) ∧
    (0 ≤ probabilityMetric false false listMin golds texts lps ∧
      probabilityMetric false false listMin golds texts lps ≤ 1) ∧
    (0 ≤ probabilityMetric false false listMax golds texts lps ∧
      probabilityMetric false false listMax golds texts lps ≤ 1) ∧
    (0 ≤ probabilityMetric false true listMin golds texts lps ∧
      probabilityMetric false true listMin golds texts lps ≤ 1) ∧
    (0 ≤ probabilityMetric false true listMax golds texts lps ∧
      probabilityMetric false true listMax golds texts lps ≤ 1) ∧
    0 ≤ probabilityMetric true true listMax golds texts lps := by
  have hbounds := exp_list_bounds hsum
  have hnn : ∀ x ∈ lps.map Real.exp, 0 ≤ x := fun x hx => (hbounds x hx).1
  have hgb := goldProbs_bounds hbounds golds
  have hgbn := goldProbs_bounds (@charNorm_exp_bounds texts lps hsum) golds
  refine ⟨compute_one_item_cases, ?_, ⟨?_, ?_⟩, ?_, ?_, ?_, ?_, ?_⟩
  · intro cn
    unfold loglikelihoodAcc
    split_ifs <;> simp
  · rw [probabilityMetric_mass, metricScores_false]
    exact List.sum_nonneg (fun x hx => (hgb x hx).1)
  · rw [probabilityMetric_mass, metricScores_false]
    have hr2 : ∀ i ∈ golds, i < (lps.map Real.exp).length := by
      intro i hi
      rw [List.length_map]
      exact hr i hi
    calc (golds.map (fun i => (lps.map Real.exp).getD i 0)).sum
        ≤ (lps.map Real.exp).sum := sum_map_getD_le _ hnn golds hn hr2
      _ = 1 := hsum
  · rw [probabilityMetric_agg, metricScores_false]
    exact (agg_bounds hgb).1
  · rw [probabilityMetric_agg, metricScores_false]
    exact (agg_bounds hgb).2
  · rw [probabilityMetric_agg, metricScores_true]
    exact (agg_bounds hgbn).1
  · rw [probabilityMetric_agg, metricScores_true]
    exact (agg_bounds hgbn).2
  · rw [probabilityMetric_mass, metricScores_true]
    exact List.sum_nonneg (fun x hx => (hgbn x hx).1)

/-- Claim C8, counterexample: the probability metric in mass mode combined
with character-length normalization exceeds 1 at a well-formed input — with
the distinct in-range gold indices [0, 1], choice texts of length 2 and
log-probabilities log([1/2, 1/2]) (linear probabilities summing to 1), the
metric returns 2 * (1/2)^(1/2) = sqrt 2 > 1, refuting the claim that each
metric returns a value in [0, 1] on every well-formed input. -/
theorem probability_mass_char_norm_exceeds_one :
    ([0, 1] : List ℕ).Nodup ∧
    (∀ i ∈ ([0, 1] : List ℕ),
      i < ([Real.log (1/2), Real.log (1/2)] : List ℝ).length) ∧
    (([Real.log (1/2), Real.log (1/2)] : List ℝ).map Real.exp).sum = 1 ∧
    1 < probabilityMetric true true listMax [0, 1] ["AB", "CD"]
        [Real.log (1/2), Real.log (1/2)] := by
  have e : Real.exp (Real.log (1/2)) = 1/2 := Real.exp_log (by norm_num)
  refine ⟨by decide, by decide, ?_, ?_⟩
  · simp only [List.map_cons, List.map_nil, List.sum_cons, List.sum_nil, e]
    norm_num
  rw [probabilityMetric_mass, metricScores_true]
  have hAB : ("AB" : String).length = 2 := rfl
  have hCD : ("CD" : String).length = 2 := rfl
  simp only [charNormScores, List.zipWith_cons_cons, List.zipWith_nil_left,
    List.map_cons, List.map_nil, List.getD_cons_zero, List.getD_cons_succ,
    List.sum_cons, List.sum_nil, add_zero, hAB, hCD]
  have key : Real.exp (Real.log (1/2) / ((2 : ℕ) : ℝ)) =
      (1/2 : ℝ) ^ ((1 : ℝ)/2) := by
    rw [Real.rpow_def_of_pos (by norm_num : (0:ℝ) < 1/2)]
    congr 1
    push_cast
    ring
  rw [key]
  have hgt : (1/2 : ℝ) < (1/2 : ℝ) ^ ((1 : ℝ)/2) := by
    calc (1/2 : ℝ) = (1/2 : ℝ) ^ ((1 : ℝ)) := (Real.rpow_one _).symm
      _ < (1/2 : ℝ) ^ ((1 : ℝ)/2) :=
        Real.rpow_lt_rpow_of_exponent_gt (by norm_num) (by norm_num) (by norm_num)
  linarith

/-- Witness for C8 at a single-choice input whose probability assignment is
exactly (1). -/
theorem metrics_output_bounded_witness :
    0 ≤ probabilityMetric true false listMax [0] ["A"] [(0 : ℝ)] ∧
    probabilityMetric true false listMax [0] ["A"] [(0 : ℝ)] ≤ 1 :=
  (metrics_output_bounded [0] ["A"] [(0 : ℝ)] (by simp) (by simp)
    (by simp)).2.2.1
